import Mathlib

/-!
Verification of the natural-language specification of `src/mekf.py`
(a Multiplicative Extended Kalman Filter) against a shallow embedding
of the code in Lean.

Modelling conventions:
* Machine floating-point numbers are modelled as real numbers (`ℝ`).
* A division whose denominator is exactly `0` produces a non-finite IEEE
  value (`NaN`/`Inf`) in the source and silently corrupts every value
  computed from it.  The embedding of `step` signals the first such zero
  denominator with the error value `StepError.nonFinite` instead of
  returning a corrupted state.
* `numpy.linalg.inv` raises `LinAlgError` on a singular matrix; the
  embedding of `step` signals this with `StepError.singular`.
* The helpers imported from `.mathutils` (`quaternion_mul`,
  `quaternion_to_left_matrix`, `quaternion_to_rotation_matrix`, `hat`,
  `block`) are not part of the given sources; they are modelled from the
  specification's description of the collaborator capabilities (§6),
  with the scalar-first quaternion convention used by the source
  (`concat([[cos(θ/2)], r*sin(θ/2)])`).
* Python normalizes identifiers to NFKC, so the `ᵇr_mag`/`ᵇr_sun`
  occurrences in the source denote the parameters `br_mag`/`br_sun`,
  and the bare `β` inside `step` denotes the module-level zero vector
  `β` (line 23), not `state.β`.
-/

set_option maxRecDepth 2000

noncomputable section

open scoped Classical
open Matrix

namespace MEKF

/-- Real column vectors of length `n`. -/
abbrev Vec (n : ℕ) := Fin n → ℝ

/-- Real `m × n` matrices. -/
abbrev Mat (m n : ℕ) := Matrix (Fin m) (Fin n) ℝ

/-- Euclidean norm of a vector; models `linalg.norm`. -/
def normV {n : ℕ} (v : Vec n) : ℝ := Real.sqrt (∑ i, v i ^ 2)

/-- Modelled from the spec: the skew-symmetric "hat" operator mapping a
3-vector to its cross-product matrix (`mathutils.hat`, §6). -/
def hat (v : Vec 3) : Mat 3 3 :=
  !![0, -v 2, v 1; v 2, 0, -v 0; -v 1, v 0, 0]

/-- Modelled from the spec: assembly of a 6×6 matrix from four 3×3 blocks
(`mathutils.block`, §6). -/
def block (A B C D : Mat 3 3) : Mat 6 6 :=
  Matrix.reindex finSumFinEquiv finSumFinEquiv (Matrix.fromBlocks A B C D)

/-- Concatenation of two 3-vectors into a 6-vector; models
`numpy.concatenate`. -/
def concatV (u v : Vec 3) : Vec 6 := fun i => Sum.elim u v (finSumFinEquiv.symm i)

/-- Modelled from the spec: Hamilton product of two quaternions, stored
scalar-first (`mathutils.quaternion_mul`, §6). -/
def quaternion_mul (a b : Vec 4) : Vec 4 :=
  ![a 0 * b 0 - a 1 * b 1 - a 2 * b 2 - a 3 * b 3,
    a 0 * b 1 + a 1 * b 0 + a 2 * b 3 - a 3 * b 2,
    a 0 * b 2 - a 1 * b 3 + a 2 * b 0 + a 3 * b 1,
    a 0 * b 3 + a 1 * b 2 - a 2 * b 1 + a 3 * b 0]

/-- Modelled from the spec: the left-multiplication matrix of a
quaternion, so that `(quaternion_to_left_matrix a).mulVec b =
quaternion_mul a b` (`mathutils.quaternion_to_left_matrix`, §6). -/
def quaternion_to_left_matrix (a : Vec 4) : Mat 4 4 :=
  !![a 0, -a 1, -a 2, -a 3;
     a 1,  a 0, -a 3,  a 2;
     a 2,  a 3,  a 0, -a 1;
     a 3, -a 2,  a 1,  a 0]

/-- Modelled from the spec: conversion of a unit quaternion to its 3×3
rotation matrix (`mathutils.quaternion_to_rotation_matrix`, §6). -/
def quaternion_to_rotation_matrix (a : Vec 4) : Mat 3 3 :=
  !![a 0 ^ 2 + a 1 ^ 2 - a 2 ^ 2 - a 3 ^ 2, 2 * (a 1 * a 2 - a 0 * a 3), 2 * (a 1 * a 3 + a 0 * a 2);
     2 * (a 1 * a 2 + a 0 * a 3), a 0 ^ 2 - a 1 ^ 2 + a 2 ^ 2 - a 3 ^ 2, 2 * (a 2 * a 3 - a 0 * a 1);
     2 * (a 1 * a 3 - a 0 * a 2), 2 * (a 2 * a 3 + a 0 * a 1), a 0 ^ 2 - a 1 ^ 2 - a 2 ^ 2 + a 3 ^ 2]

/-- Module-level attitude vector `q` (source line 22). -/
def q : Vec 4 := ![0, 0, 0, 0]

/-- Module-level gyro bias vector `β` (source line 23).  It is
initialized to zero and never reassigned anywhere in the module. -/
def β : Vec 3 := ![0, 0, 0]

/-- Module-level covariance matrix `P = I(6)` (source line 24). -/
def P : Mat 6 6 := 1

/-- The filter state named tuple `State(q, β, P)` (source line 26). -/
structure State where
  q : Vec 4
  β : Vec 3
  P : Mat 6 6

/-- State propagation function (source lines 29–41).  The local `β` and
`q` parameters shadow the module-level globals, exactly as in Python. -/
def propagate_state (q : Vec 4) (β ω : Vec 3) (δt : ℝ) : Vec 4 :=
  let θ := normV (ω - β) * δt
  if normV (ω - β) = 0 then q
  else
    quaternion_mul q
      ![Real.cos (θ / 2),
        (ω - β) 0 / normV (ω - β) * Real.sin (θ / 2),
        (ω - β) 1 / normV (ω - β) * Real.sin (θ / 2),
        (ω - β) 2 / normV (ω - β) * Real.sin (θ / 2)]

/-- Process noise `W = I(6) * 1e-6` (source line 59). -/
def W : Mat 6 6 := (1e-6 : ℝ) • 1

/-- Measurement noise `V = I(6) * 1e-6` (source line 60). -/
def V : Mat 6 6 := (1e-6 : ℝ) • 1

/-- Failure conditions of one `step`: `singular` models the
`LinAlgError` raised by `linalg.inv` on a singular innovation
covariance; `nonFinite` models a division by exactly zero, which in the
floating-point source produces `NaN`/`Inf` values in the result. -/
inductive StepError
  | singular
  | nonFinite

/-- `v = -(ω - β)` (source line 69).  `β` here is the module-level zero
bias, not the state's bias — faithful to the source's scoping. -/
def step_v (ω : Vec 3) : Vec 3 := -(ω - β)

/-- `mag = linalg.norm(v)` (source line 70). -/
def step_mag (ω : Vec 3) : ℝ := normV (step_v ω)

/-- `v̂ = hat(v / mag)` (source line 71). -/
def step_vhat (ω : Vec 3) : Mat 3 3 :=
  hat fun i => step_v ω i / step_mag ω

/-- `R = I(3) + v̂·sin(mag·δt) + v̂·v̂·(1 − cos(mag·δt))` (source line 72). -/
def step_R (ω : Vec 3) (δt : ℝ) : Mat 3 3 :=
  1 + Real.sin (step_mag ω * δt) • step_vhat ω +
    (1 - Real.cos (step_mag ω * δt)) • (step_vhat ω * step_vhat ω)

/-- `A = block([[R, −δt·I(3)], [0, I(3)]])` (source lines 74–76). -/
def step_A (ω : Vec 3) (δt : ℝ) : Mat 6 6 :=
  block (step_R ω δt) ((-δt) • 1) 0 1

/-- `P_p = A·P·Aᵀ + W` (source line 77), with `state.P` as `Pm`. -/
def step_Pp (Pm : Mat 6 6) (ω : Vec 3) (δt : ℝ) : Mat 6 6 :=
  step_A ω δt * Pm * (step_A ω δt)ᵀ + W

/-- `q_p = propagate_state(state.q, state.β, ω, δt)` (source line 65). -/
def step_qp (state : State) (ω : Vec 3) (δt : ℝ) : Vec 4 :=
  propagate_state state.q state.β ω δt

/-- Innovation `Z = [br_mag; br_sun] − blockdiag(Q, Q)·[nr_mag; nr_sun]`
with `Q = quaternion_to_rotation_matrix(q_p)ᵀ` (source lines 80–85). -/
def step_Z (q_p : Vec 4) (nr_mag nr_sun br_mag br_sun : Vec 3) : Vec 6 :=
  concatV br_mag br_sun -
    (block (quaternion_to_rotation_matrix q_p)ᵀ 0 0
        (quaternion_to_rotation_matrix q_p)ᵀ).mulVec
      (concatV nr_mag nr_sun)

/-- `C = block([[hat(br_mag), 0], [hat(br_sun), 0]])` (source lines 86–87). -/
def step_C (br_mag br_sun : Vec 3) : Mat 6 6 :=
  block (hat br_mag) 0 (hat br_sun) 0

/-- `S = C·P_p·Cᵀ + V` (source line 88). -/
def step_S (Pm : Mat 6 6) (ω : Vec 3) (δt : ℝ) (br_mag br_sun : Vec 3) : Mat 6 6 :=
  step_C br_mag br_sun * step_Pp Pm ω δt * (step_C br_mag br_sun)ᵀ + V

/-- Kalman gain `L = P_p·Cᵀ·S⁻¹` (source line 91). -/
def step_L (Pm : Mat 6 6) (ω : Vec 3) (δt : ℝ) (br_mag br_sun : Vec 3) : Mat 6 6 :=
  step_Pp Pm ω δt * (step_C br_mag br_sun)ᵀ * (step_S Pm ω δt br_mag br_sun)⁻¹

/-- Correction `δx = L·Z` (source line 94). -/
def step_δx (state : State) (ω : Vec 3) (δt : ℝ) (nr_mag nr_sun br_mag br_sun : Vec 3) : Vec 6 :=
  (step_L state.P ω δt br_mag br_sun).mulVec
    (step_Z (step_qp state ω δt) nr_mag nr_sun br_mag br_sun)

/-- Rotation-error part `ϕ = δx[0:3]` (source line 95). -/
def step_ϕ (state : State) (ω : Vec 3) (δt : ℝ) (nr_mag nr_sun br_mag br_sun : Vec 3) : Vec 3 :=
  ![step_δx state ω δt nr_mag nr_sun br_mag br_sun 0,
    step_δx state ω δt nr_mag nr_sun br_mag br_sun 1,
    step_δx state ω δt nr_mag nr_sun br_mag br_sun 2]

/-- Bias-error part `δβ = δx[3:]` (source line 96). -/
def step_δβ (state : State) (ω : Vec 3) (δt : ℝ) (nr_mag nr_sun br_mag br_sun : Vec 3) : Vec 3 :=
  ![step_δx state ω δt nr_mag nr_sun br_mag br_sun 3,
    step_δx state ω δt nr_mag nr_sun br_mag br_sun 4,
    step_δx state ω δt nr_mag nr_sun br_mag br_sun 5]

/-- Correction angle `θ = linalg.norm(ϕ)` (source line 97). -/
def step_θ (state : State) (ω : Vec 3) (δt : ℝ) (nr_mag nr_sun br_mag br_sun : Vec 3) : ℝ :=
  normV (step_ϕ state ω δt nr_mag nr_sun br_mag br_sun)

/-- Correction axis `r = ϕ / θ` (source line 98). -/
def step_r (state : State) (ω : Vec 3) (δt : ℝ) (nr_mag nr_sun br_mag br_sun : Vec 3) : Vec 3 :=
  fun i => step_ϕ state ω δt nr_mag nr_sun br_mag br_sun i /
    step_θ state ω δt nr_mag nr_sun br_mag br_sun

/-- Updated quaternion before renormalization,
`q_u = quaternion_to_left_matrix(q_p) · [cos(θ/2); r·sin(θ/2)]`
(source lines 99–100). -/
def step_qu (state : State) (ω : Vec 3) (δt : ℝ) (nr_mag nr_sun br_mag br_sun : Vec 3) : Vec 4 :=
  (quaternion_to_left_matrix (step_qp state ω δt)).mulVec
    ![Real.cos (step_θ state ω δt nr_mag nr_sun br_mag br_sun / 2),
      step_r state ω δt nr_mag nr_sun br_mag br_sun 0 *
        Real.sin (step_θ state ω δt nr_mag nr_sun br_mag br_sun / 2),
      step_r state ω δt nr_mag nr_sun br_mag br_sun 1 *
        Real.sin (step_θ state ω δt nr_mag nr_sun br_mag br_sun / 2),
      step_r state ω δt nr_mag nr_sun br_mag br_sun 2 *
        Real.sin (step_θ state ω δt nr_mag nr_sun br_mag br_sun / 2)]

/-- Updated covariance `P_u = (I(6) − LC)·P_p·(I(6) − LC)ᵀ + L·V·Lᵀ`
(source lines 102–106). -/
def step_Pu (state : State) (ω : Vec 3) (δt : ℝ) (nr_mag nr_sun br_mag br_sun : Vec 3) : Mat 6 6 :=
  ((1 : Mat 6 6) - step_L state.P ω δt br_mag br_sun * step_C br_mag br_sun) *
      step_Pp state.P ω δt *
      ((1 : Mat 6 6) - step_L state.P ω δt br_mag br_sun * step_C br_mag br_sun)ᵀ +
    step_L state.P ω δt br_mag br_sun * V * (step_L state.P ω δt br_mag br_sun)ᵀ

/-- One MEKF iteration (source lines 43–111).  The returned state is
`State(q_u / ‖q_u‖, β + δβ, P_u)` — note the module-level `β`.  The four
guards model, in the source's evaluation order, the places where the
floating-point code stops computing real numbers: `mag = 0` makes
`v / mag` produce `NaN` (corrupting `A`, `P_p`, `S`, …), a singular `S`
makes `linalg.inv` raise `LinAlgError`, `θ = 0` makes `ϕ / θ` produce a
`NaN` quaternion, and `‖q_u‖ = 0` makes the final renormalization
produce `NaN`. -/
def step (state : State) (ω : Vec 3) (δt : ℝ) (nr_mag nr_sun br_mag br_sun : Vec 3) :
    Except StepError State :=
  if step_mag ω = 0 then Except.error StepError.nonFinite
  else if (step_S state.P ω δt br_mag br_sun).det = 0 then Except.error StepError.singular
  else if step_θ state ω δt nr_mag nr_sun br_mag br_sun = 0 then Except.error StepError.nonFinite
  else if normV (step_qu state ω δt nr_mag nr_sun br_mag br_sun) = 0 then
    Except.error StepError.nonFinite
  else
    Except.ok
      ⟨fun i => step_qu state ω δt nr_mag nr_sun br_mag br_sun i /
          normV (step_qu state ω δt nr_mag nr_sun br_mag br_sun),
        β + step_δβ state ω δt nr_mag nr_sun br_mag br_sun,
        step_Pu state ω δt nr_mag nr_sun br_mag br_sun⟩

/-- Claim-side transition matrix, written literally from claim C2:
`A = [[R, −δt·I₃],[0, I₃]]` with
`R = I₃ + v̂·sin(‖v‖δt) + v̂²·(1 − cos(‖v‖δt))`, `v = −(ω − β)` for the
prior state's bias `β`, and `v̂` the hat matrix of `v` itself. -/
def Aspec (βs ω : Vec 3) (δt : ℝ) : Mat 6 6 :=
  block
    (1 + Real.sin (normV (-(ω - βs)) * δt) • hat (-(ω - βs)) +
      (1 - Real.cos (normV (-(ω - βs)) * δt)) • (hat (-(ω - βs)) * hat (-(ω - βs))))
    ((-δt) • 1) 0 1

/-- Amended claim-side transition matrix for C2: as `Aspec`, but the hat
matrix is taken of the normalized vector `v/‖v‖`, and `v = −ω` because
the code reads the module-level zero bias rather than the state's. -/
def Aam (ω : Vec 3) (δt : ℝ) : Mat 6 6 :=
  block
    (1 + Real.sin (normV (-ω) * δt) • hat (fun i => (-ω) i / normV (-ω)) +
      (1 - Real.cos (normV (-ω) * δt)) •
        (hat (fun i => (-ω) i / normV (-ω)) * hat (fun i => (-ω) i / normV (-ω))))
    ((-δt) • 1) 0 1

/-- Claim-side measurement sensitivity, written entrywise from claim C8:
first three columns are the stacked hat matrices of the measured
body-frame vectors, last three (bias) columns are zero. -/
def Cspec (br_mag br_sun : Vec 3) : Mat 6 6 := fun i j =>
  if hj : (j : ℕ) < 3 then
    if hi : (i : ℕ) < 3 then hat br_mag ⟨i, hi⟩ ⟨j, hj⟩
    else hat br_sun ⟨(i : ℕ) - 3, by omega⟩ ⟨j, hj⟩
  else 0

/-- Claim-side Joseph-form covariance update, written from claim C7:
`(I₆ − L·C)·P_p·(I₆ − L·C)ᵀ + L·V·Lᵀ`. -/
def josephSpec (L C Pp Vm : Mat 6 6) : Mat 6 6 :=
  ((1 : Mat 6 6) - L * C) * Pp * ((1 : Mat 6 6) - L * C)ᵀ + L * Vm * Lᵀ

/-- The simplified covariance update `(I₆ − L·C)·P_p` that claim C7 says
the code does not use. -/
def simpleSpec (L C Pp : Mat 6 6) : Mat 6 6 :=
  ((1 : Mat 6 6) - L * C) * Pp

/-- Concrete state with an indefinite covariance `P = −2e-6·I₆`, used to
exhibit a singular innovation covariance. -/
def sSing : State := ⟨![1, 0, 0, 0], ![0, 0, 0], (-(2e-6) : ℝ) • 1⟩

/-- Concrete state with identity covariance. -/
def sId : State := ⟨![1, 0, 0, 0], ![0, 0, 0], 1⟩

/-- Concrete state with a nonzero bias estimate `β = (1,0,0)`. -/
def sBias : State := ⟨![1, 0, 0, 0], ![1, 0, 0], 1⟩

/-! ### Helper lemmas -/

lemma β_eq_zero : β = 0 := by
  funext i
  fin_cases i <;> rfl

lemma normV_nonneg {n : ℕ} (v : Vec n) : 0 ≤ normV v := Real.sqrt_nonneg _

lemma normV_eq_zero {n : ℕ} {v : Vec n} : normV v = 0 ↔ v = 0 := by
  unfold normV
  rw [Real.sqrt_eq_zero (by positivity)]
  constructor
  · intro h
    funext i
    have := (Finset.sum_eq_zero_iff_of_nonneg fun i _ => sq_nonneg (v i)).1 h i
      (Finset.mem_univ i)
    exact pow_eq_zero_iff (by norm_num) |>.mp this
  · intro h
    subst h
    simp

lemma normV_normalize {n : ℕ} (v : Vec n) (h : normV v ≠ 0) :
    normV (fun i => v i / normV v) = 1 := by
  have hs : (0 : ℝ) ≤ ∑ i, v i ^ 2 := by positivity
  unfold normV at *
  have hq : ∑ i, (v i / Real.sqrt (∑ j, v j ^ 2)) ^ 2 = (∑ i, v i ^ 2) / ∑ j, v j ^ 2 := by
    rw [Finset.sum_div]
    refine Finset.sum_congr rfl fun i _ => ?_
    rw [div_pow, Real.sq_sqrt hs]
  rw [hq, div_self, Real.sqrt_one]
  intro h0
  rw [h0] at h
  simp at h

lemma concatV_apply_0 (u v : Vec 3) : concatV u v 0 = u 0 := by
  rw [concatV, show (finSumFinEquiv.symm (0 : Fin 6) : Fin 3 ⊕ Fin 3) = Sum.inl 0 from by decide]
  rfl

lemma concatV_apply_1 (u v : Vec 3) : concatV u v 1 = u 1 := by
  rw [concatV, show (finSumFinEquiv.symm (1 : Fin 6) : Fin 3 ⊕ Fin 3) = Sum.inl 1 from by decide]
  rfl

lemma concatV_apply_2 (u v : Vec 3) : concatV u v 2 = u 2 := by
  rw [concatV, show (finSumFinEquiv.symm (2 : Fin 6) : Fin 3 ⊕ Fin 3) = Sum.inl 2 from by decide]
  rfl

lemma concatV_apply_3 (u v : Vec 3) : concatV u v 3 = v 0 := by
  rw [concatV, show (finSumFinEquiv.symm (3 : Fin 6) : Fin 3 ⊕ Fin 3) = Sum.inr 0 from by decide]
  rfl

lemma concatV_apply_4 (u v : Vec 3) : concatV u v 4 = v 1 := by
  rw [concatV, show (finSumFinEquiv.symm (4 : Fin 6) : Fin 3 ⊕ Fin 3) = Sum.inr 1 from by decide]
  rfl

lemma concatV_apply_5 (u v : Vec 3) : concatV u v 5 = v 2 := by
  rw [concatV, show (finSumFinEquiv.symm (5 : Fin 6) : Fin 3 ⊕ Fin 3) = Sum.inr 2 from by decide]
  rfl

lemma concatV_sub (u v u' v' : Vec 3) :
    concatV u v - concatV u' v' = concatV (u - u') (v - v') := by
  funext i
  rw [Pi.sub_apply, concatV, concatV, concatV]
  rcases (finSumFinEquiv.symm i : Fin 3 ⊕ Fin 3) with a | a <;> simp

lemma block_mul (A B C D A' B' C' D' : Mat 3 3) :
    block A B C D * block A' B' C' D' =
      block (A * A' + B * C') (A * B' + B * D') (C * A' + D * C') (C * B' + D * D') := by
  unfold block
  simp only [Matrix.reindex_apply]
  rw [Matrix.submatrix_mul_equiv, Matrix.fromBlocks_multiply]

lemma block_transpose (A B C D : Mat 3 3) :
    (block A B C D)ᵀ = block Aᵀ Cᵀ Bᵀ Dᵀ := by
  unfold block
  simp only [Matrix.reindex_apply, Matrix.transpose_submatrix, Matrix.fromBlocks_transpose]

lemma block_add (A B C D A' B' C' D' : Mat 3 3) :
    block A B C D + block A' B' C' D' = block (A + A') (B + B') (C + C') (D + D') := by
  unfold block
  simp only [Matrix.reindex_apply]
  ext i j
  rcases hi : (finSumFinEquiv.symm i : Fin 3 ⊕ Fin 3) with a | a <;>
    rcases hj : (finSumFinEquiv.symm j : Fin 3 ⊕ Fin 3) with b | b <;>
      simp [Matrix.submatrix_apply, hi, hj]

lemma block_smul (c : ℝ) (A B C D : Mat 3 3) :
    c • block A B C D = block (c • A) (c • B) (c • C) (c • D) := by
  unfold block
  simp only [Matrix.reindex_apply]
  ext i j
  rcases hi : (finSumFinEquiv.symm i : Fin 3 ⊕ Fin 3) with a | a <;>
    rcases hj : (finSumFinEquiv.symm j : Fin 3 ⊕ Fin 3) with b | b <;>
      simp [Matrix.submatrix_apply, hi, hj]

lemma block_one : block 1 0 0 1 = (1 : Mat 6 6) := by
  unfold block
  simp only [Matrix.reindex_apply, Matrix.fromBlocks_one, Matrix.submatrix_one_equiv]

lemma block_zero : block 0 0 0 0 = (0 : Mat 6 6) := by
  unfold block
  simp only [Matrix.reindex_apply, Matrix.fromBlocks_zero]
  rfl

lemma block_det_lower_zero (A B D : Mat 3 3) :
    (block A B 0 D).det = A.det * D.det := by
  unfold block
  rw [Matrix.det_reindex_self, Matrix.det_fromBlocks_zero₂₁]

lemma block_mulVec (A B C D : Mat 3 3) (u v : Vec 3) :
    (block A B C D).mulVec (concatV u v) =
      concatV (A.mulVec u + B.mulVec v) (C.mulVec u + D.mulVec v) := by
  unfold block concatV
  funext i
  simp only [Matrix.reindex_apply]
  rw [Matrix.submatrix_mulVec_equiv]
  simp [Matrix.fromBlocks_mulVec]
  congr

lemma hat_zeroVec : hat ![0, 0, 0] = 0 := by
  ext i j
  fin_cases i <;> fin_cases j <;> simp [hat, Matrix.vecHead, Matrix.vecTail]

lemma quaternion_mul_unit_right (a : Vec 4) : quaternion_mul a ![1, 0, 0, 0] = a := by
  funext i
  fin_cases i <;> simp [quaternion_mul, Matrix.vecHead, Matrix.vecTail]

lemma left_matrix_unit : quaternion_to_left_matrix ![1, 0, 0, 0] = 1 := by
  ext i j
  fin_cases i <;> fin_cases j <;>
    simp [quaternion_to_left_matrix, Matrix.one_apply, Matrix.vecHead, Matrix.vecTail]

lemma rot_unit : quaternion_to_rotation_matrix ![1, 0, 0, 0] = 1 := by
  ext i j
  fin_cases i <;> fin_cases j <;>
    simp [quaternion_to_rotation_matrix, Matrix.one_apply, Matrix.vecHead, Matrix.vecTail]

/-! ### Claim theorems -/

/-- Claim C9: for every quaternion `q`, bias `β`, rate `ω` and time step
`δt`, if `ω = β` exactly, or if `δt = 0`, `propagate_state` returns `q`
unchanged. -/
theorem propagate_state_identity_cases (q : Vec 4) (βp ω : Vec 3) (δt : ℝ)
    (h : ω = βp ∨ δt = 0) : propagate_state q βp ω δt = q := by
  rcases h with h | h
  · subst h
    have h0 : normV (0 : Vec 3) = 0 := normV_eq_zero.2 rfl
    simp [propagate_state, h0]
  · subst h
    by_cases h0 : normV (ω - βp) = 0
    · simp [propagate_state, h0]
    · simp only [propagate_state, if_neg h0, mul_zero, zero_div, Real.cos_zero, Real.sin_zero]
      exact quaternion_mul_unit_right q

/-- Witness for C9 at the concrete input `ω = β = (0,0,1)`, `δt = 1`. -/
theorem propagate_state_identity_cases_witness :
    ((![0, 0, 1] : Vec 3) = ![0, 0, 1] ∨ (1 : ℝ) = 0) ∧
      propagate_state ![1, 0, 0, 0] ![0, 0, 1] ![0, 0, 1] 1 = ![1, 0, 0, 0] :=
  ⟨Or.inl rfl, propagate_state_identity_cases ![1, 0, 0, 0] ![0, 0, 1] ![0, 0, 1] 1 (Or.inl rfl)⟩

/-- Claim C3 (code bug): at the degenerate rate `ω = 0` (so that
`‖ω − β‖ = 0` for the zero bias) the filter step does not treat the
rotation as the identity: the source divides `v` by `‖v‖ = 0`, producing
non-finite values, modelled here as the `nonFinite` failure. -/
theorem step_degenerate_rate_nonfinite :
    step ⟨![1, 0, 0, 0], ![0, 0, 0], 1⟩ ![0, 0, 0] 1 ![1, 0, 0] ![0, 1, 0] ![1, 0, 0] ![0, 1, 0] =
      Except.error StepError.nonFinite := by
  have hv : step_v ![0, 0, 0] = 0 := by
    funext i
    fin_cases i <;> simp [step_v, β]
  have hmag : step_mag ![0, 0, 0] = 0 := by
    rw [step_mag, hv]
    exact normV_eq_zero.2 rfl
  simp [step, hmag]

/-- Claim C5: whenever `step` returns a state, its quaternion has unit
norm, because of the unconditional final renormalization. -/
theorem step_quaternion_unit_norm (s : State) (ω : Vec 3) (δt : ℝ)
    (nr_mag nr_sun br_mag br_sun : Vec 3) :
    (step s ω δt nr_mag nr_sun br_mag br_sun).map (fun st => normV st.q) =
      (step s ω δt nr_mag nr_sun br_mag br_sun).map fun _ => 1 := by
  unfold step
  split_ifs with h1 h2 h3 h4
  · rfl
  · rfl
  · rfl
  · rfl
  · simp only [Except.map]
    exact congrArg Except.ok (normV_normalize _ h4)

/-- Claim C10: the module-level bias `β` is the zero vector, and the
bias of every state returned by `step` equals exactly the last three
components `δβ` of the correction `δx = L·Z` (the additive term in
`β_u = β + δβ` is the module-level zero bias, not the state's bias). -/
theorem step_bias_equals_correction :
    β = 0 ∧ ∀ (s : State) (ω : Vec 3) (δt : ℝ) (nr_mag nr_sun br_mag br_sun : Vec 3),
      (step s ω δt nr_mag nr_sun br_mag br_sun).map State.β =
        (step s ω δt nr_mag nr_sun br_mag br_sun).map fun _ =>
          step_δβ s ω δt nr_mag nr_sun br_mag br_sun := by
  refine ⟨β_eq_zero, fun s ω δt nr_mag nr_sun br_mag br_sun => ?_⟩
  unfold step
  split_ifs with h1 h2 h3 h4
  · rfl
  · rfl
  · rfl
  · rfl
  · simp only [Except.map, β_eq_zero, zero_add]

lemma step_Pp_transpose (Pm : Mat 6 6) (ω : Vec 3) (δt : ℝ) (h : Pmᵀ = Pm) :
    (step_Pp Pm ω δt)ᵀ = step_Pp Pm ω δt := by
  unfold step_Pp W
  rw [Matrix.transpose_add, Matrix.transpose_mul, Matrix.transpose_mul,
    Matrix.transpose_transpose, Matrix.transpose_smul, Matrix.transpose_one, h,
    Matrix.mul_assoc]

lemma step_Pu_transpose (s : State) (ω : Vec 3) (δt : ℝ)
    (nr_mag nr_sun br_mag br_sun : Vec 3) (h : s.Pᵀ = s.P) :
    (step_Pu s ω δt nr_mag nr_sun br_mag br_sun)ᵀ =
      step_Pu s ω δt nr_mag nr_sun br_mag br_sun := by
  unfold step_Pu
  rw [Matrix.transpose_add, Matrix.transpose_mul, Matrix.transpose_mul,
    Matrix.transpose_transpose, Matrix.transpose_mul, Matrix.transpose_mul,
    Matrix.transpose_transpose, step_Pp_transpose _ _ _ h]
  have hV : Vᵀ = V := by
    unfold V
    rw [Matrix.transpose_smul, Matrix.transpose_one]
  rw [hV, Matrix.mul_assoc, Matrix.mul_assoc]

/-- Claim C6: if the input state's covariance is symmetric, then the
covariance of the state returned by `step` is symmetric. -/
theorem step_covariance_symmetric (s : State) (ω : Vec 3) (δt : ℝ)
    (nr_mag nr_sun br_mag br_sun : Vec 3) (h : s.Pᵀ = s.P) :
    (step s ω δt nr_mag nr_sun br_mag br_sun).map (fun st => st.Pᵀ) =
      (step s ω δt nr_mag nr_sun br_mag br_sun).map State.P := by
  unfold step
  split_ifs with h1 h2 h3 h4
  · rfl
  · rfl
  · rfl
  · rfl
  · simp only [Except.map]
    exact congrArg Except.ok (step_Pu_transpose s ω δt nr_mag nr_sun br_mag br_sun h)

/-- Witness for C6 at a concrete symmetric covariance (`P = I₆`). -/
theorem step_covariance_symmetric_witness :
    ((1 : Mat 6 6)ᵀ = 1) ∧
      (step ⟨![1, 0, 0, 0], ![0, 0, 0], 1⟩ ![0, 0, 1] 1 ![1, 0, 0] ![0, 1, 0] ![1, 0, 0]
            ![0, 1, 0]).map (fun st => st.Pᵀ) =
        (step ⟨![1, 0, 0, 0], ![0, 0, 0], 1⟩ ![0, 0, 1] 1 ![1, 0, 0] ![0, 1, 0] ![1, 0, 0]
            ![0, 1, 0]).map State.P :=
  ⟨Matrix.transpose_one,
    step_covariance_symmetric ⟨![1, 0, 0, 0], ![0, 0, 0], 1⟩ ![0, 0, 1] 1 ![1, 0, 0] ![0, 1, 0]
      ![1, 0, 0] ![0, 1, 0] Matrix.transpose_one⟩

/-- Claim C7: the updated covariance returned by `step` equals the
Joseph form `(I₆ − LC)·P_p·(I₆ − LC)ᵀ + L·V·Lᵀ`, and the Joseph form is
not the simplified `(I − LC)·P_p` form (they differ, e.g., at
`L = I₆, C = 0, P_p = I₆`). -/
theorem step_covariance_joseph_form :
    (∀ (s : State) (ω : Vec 3) (δt : ℝ) (nr_mag nr_sun br_mag br_sun : Vec 3),
        (step s ω δt nr_mag nr_sun br_mag br_sun).map State.P =
          (step s ω δt nr_mag nr_sun br_mag br_sun).map fun _ =>
            josephSpec (step_L s.P ω δt br_mag br_sun) (step_C br_mag br_sun)
              (step_Pp s.P ω δt) V) ∧
      josephSpec 1 0 1 V ≠ simpleSpec 1 0 1 := by
  constructor
  · intro s ω δt nr_mag nr_sun br_mag br_sun
    unfold step
    split_ifs with h1 h2 h3 h4
    · rfl
    · rfl
    · rfl
    · rfl
    · rfl
  · intro h
    have h00 := congrFun (congrFun h 0) 0
    simp [josephSpec, simpleSpec, V, Matrix.one_apply] at h00
    exact absurd h00 (by norm_num)

/-- Claim C8: the measurement-sensitivity matrix built by `step` is the
6×6 block matrix whose first three columns are the stacked hat matrices
of the measured body-frame vectors and whose bias columns are zero. -/
theorem step_measurement_sensitivity (br_mag br_sun : Vec 3) :
    step_C br_mag br_sun = Cspec br_mag br_sun := by
  ext i j
  fin_cases i <;> fin_cases j <;> rfl

lemma vec3_zero : (![0, 0, 0] : Vec 3) = 0 := by
  funext i
  fin_cases i <;> rfl

lemma normV3_eval (a b c : ℝ) : normV ![a, b, c] = Real.sqrt (a ^ 2 + b ^ 2 + c ^ 2) := by
  simp [normV, Fin.sum_univ_three]

lemma normV_neg {n : ℕ} (v : Vec n) : normV (-v) = normV v := by
  unfold normV
  congr 1
  refine Finset.sum_congr rfl fun i _ => ?_
  simp

lemma step_v_eval (ω : Vec 3) : step_v ω = -ω := by
  funext i
  simp [step_v, β_eq_zero]

lemma step_mag_eval (ω : Vec 3) : step_mag ω = normV ω := by
  rw [step_mag, step_v_eval, normV_neg]

lemma step_mag_e1 : step_mag ![1, 0, 0] = 1 := by
  rw [step_mag_eval, normV3_eval]
  norm_num

lemma step_mag_3e1 : step_mag ![3, 0, 0] = 3 := by
  rw [step_mag_eval, normV3_eval, show (3 : ℝ) ^ 2 + 0 ^ 2 + 0 ^ 2 = 3 ^ 2 by norm_num]
  exact Real.sqrt_sq (by norm_num)

lemma block_apply_11 (A B C D : Mat 3 3) : block A B C D 1 1 = A 1 1 := rfl

lemma step_A_dt0 (ω : Vec 3) : step_A ω 0 = 1 := by
  unfold step_A step_R
  rw [mul_zero, Real.sin_zero, Real.cos_zero, zero_smul, sub_self, zero_smul, add_zero,
    add_zero, neg_zero, zero_smul]
  exact block_one

lemma step_Pp_dt0 (Pm : Mat 6 6) (ω : Vec 3) : step_Pp Pm ω 0 = Pm + W := by
  rw [step_Pp, step_A_dt0, Matrix.transpose_one, Matrix.one_mul, Matrix.mul_one]

/-- Claim C2 counterexample: the transition matrix the code uses is not
the one the claim states.  At `ω = (3,0,0)`, `δt = 1` and prior bias
`(1,0,0)`, the code's `A` (built from `hat(v/‖v‖)` with `v = −ω`, the
module-level zero bias) differs from the claim's `A` (built from
`hat(v)` with `v = −(ω − β)` for the state's bias) at entry `(1,1)`. -/
theorem transition_matrix_claim_counterexample :
    step_A ![3, 0, 0] 1 ≠ Aspec ![1, 0, 0] ![3, 0, 0] 1 := by
  intro h
  have h11 := congrFun (congrFun h 1) 1
  have hL : step_A ![3, 0, 0] 1 1 1 = Real.cos 3 := by
    have hu : (fun i => step_v ![3, 0, 0] i / step_mag ![3, 0, 0]) = ![-1, 0, 0] := by
      rw [step_v_eval, step_mag_3e1]
      funext i
      fin_cases i <;> norm_num
    show step_R ![3, 0, 0] 1 1 1 = Real.cos 3
    unfold step_R step_vhat
    rw [hu, step_mag_3e1]
    simp [hat, Matrix.mul_apply, Fin.sum_univ_three, Matrix.one_apply,
      Matrix.vecHead, Matrix.vecTail]
  have hv : -((![3, 0, 0] : Vec 3) - ![1, 0, 0]) = ![-2, 0, 0] := by
    funext i
    fin_cases i <;> norm_num
  have hR : Aspec ![1, 0, 0] ![3, 0, 0] 1 1 1 = 4 * Real.cos 2 - 3 := by
    unfold Aspec
    rw [block_apply_11, hv]
    have h2 : normV ![(-2 : ℝ), 0, 0] = 2 := by
      rw [normV3_eval, show ((-2 : ℝ)) ^ 2 + 0 ^ 2 + 0 ^ 2 = 2 ^ 2 by norm_num]
      exact Real.sqrt_sq (by norm_num)
    rw [h2]
    simp [hat, Matrix.mul_apply, Fin.sum_univ_three, Matrix.one_apply,
      Matrix.vecHead, Matrix.vecTail]
    ring
  rw [hL, hR] at h11
  have hc2 : Real.cos 2 ≤ 0 :=
    Real.cos_nonpos_of_pi_div_two_le_of_le (by linarith [Real.pi_le_four])
      (by linarith [Real.pi_gt_three])
  have hc3 : (-1 : ℝ) ≤ Real.cos 3 := Real.neg_one_le_cos 3
  linarith

/-- Claim C2 as amended: when `‖v‖ ≠ 0` (otherwise the code's division
`v/‖v‖` is not defined over the reals and produces NaN), the covariance
is propagated as `P_p = A·P·Aᵀ + W` with
`A = [[R, −δt·I₃],[0, I₃]]`, `R = I₃ + û·sin(‖v‖δt) + û²·(1−cos(‖v‖δt))`,
`û = hat(v/‖v‖)`, and `v = −ω` (the module-level zero bias, not the
prior state's bias). -/
theorem covariance_propagation_amended (Pm : Mat 6 6) (ω : Vec 3) (δt : ℝ)
    (h : step_mag ω ≠ 0) :
    step_Pp Pm ω δt = Aam ω δt * Pm * (Aam ω δt)ᵀ + W := by
  have hA : step_A ω δt = Aam ω δt := by
    unfold step_A Aam step_R step_vhat
    rw [step_mag_eval, step_v_eval, normV_neg]
  rw [step_Pp, hA]

/-- Witness for the amended C2 at `ω = (1,0,0)`, `δt = 0`, `P = I₆`. -/
theorem covariance_propagation_amended_witness :
    step_mag ![1, 0, 0] ≠ 0 ∧
      step_Pp 1 ![1, 0, 0] 0 = Aam ![1, 0, 0] 0 * 1 * (Aam ![1, 0, 0] 0)ᵀ + W :=
  ⟨by rw [step_mag_e1]; norm_num,
    covariance_propagation_amended 1 ![1, 0, 0] 0 (by rw [step_mag_e1]; norm_num)⟩

lemma hat_e1_eval : hat ![1, 0, 0] = !![0, 0, 0; 0, 0, -1; 0, 1, 0] := by
  ext i j
  fin_cases i <;> fin_cases j <;> simp [hat, Matrix.vecHead, Matrix.vecTail]

lemma V_det_ne_zero : (V : Mat 6 6).det ≠ 0 := by
  unfold V
  rw [Matrix.det_smul]
  norm_num [Fintype.card_fin, Matrix.det_one]

/-- Claim C4 (amended part): whenever the innovation covariance `S` is
singular (and the earlier `‖v‖ = 0` guard is passed, since the source
hits that division first), `step` fails with the singularity condition
rather than returning a state derived from an undefined inverse. -/
theorem step_singular_innovation_fails (s : State) (ω : Vec 3) (δt : ℝ)
    (nr_mag nr_sun br_mag br_sun : Vec 3) (h1 : step_mag ω ≠ 0)
    (h2 : (step_S s.P ω δt br_mag br_sun).det = 0) :
    step s ω δt nr_mag nr_sun br_mag br_sun = Except.error StepError.singular := by
  unfold step
  rw [if_neg h1, if_pos h2]

/-- Witness for C4: a concrete input with singular `S` (obtained with an
indefinite prior covariance `P = −2e-6·I₆`), on which `step` signals the
singularity. -/
theorem step_singular_innovation_fails_witness :
    step_mag ![1, 0, 0] ≠ 0 ∧
      (step_S sSing.P ![1, 0, 0] 0 ![1, 0, 0] ![0, 0, 0]).det = 0 ∧
      step sSing ![1, 0, 0] 0 ![0, 1, 0] ![0, 0, 1] ![1, 0, 0] ![0, 0, 0] =
        Except.error StepError.singular := by
  have h1 : step_mag ![1, 0, 0] ≠ 0 := by
    rw [step_mag_e1]
    norm_num
  have hPp : step_Pp ((-(2e-6) : ℝ) • 1) ![1, 0, 0] 0 = (-(1e-6) : ℝ) • 1 := by
    rw [step_Pp_dt0]
    unfold W
    rw [← add_smul]
    norm_num
  have hC : step_C ![1, 0, 0] ![0, 0, 0] = block (hat ![1, 0, 0]) 0 0 0 := by
    unfold step_C
    rw [hat_zeroVec]
  have hsq : hat ![1, 0, 0] * (hat ![1, 0, 0])ᵀ = !![0, 0, 0; 0, 1, 0; 0, 0, 1] := by
    rw [hat_e1_eval]
    ext i j
    fin_cases i <;> fin_cases j <;>
      simp [Matrix.mul_apply, Fin.sum_univ_three, Matrix.vecHead, Matrix.vecTail]
  have hV : (V : Mat 6 6) = block ((1e-6 : ℝ) • 1) 0 0 ((1e-6 : ℝ) • 1) := by
    unfold V
    rw [show (1 : Mat 6 6) = block 1 0 0 1 from block_one.symm, block_smul, smul_zero]
  have hinner : (-(1e-6) : ℝ) • (!![0, 0, 0; 0, 1, 0; 0, 0, 1] : Mat 3 3) + (1e-6 : ℝ) • 1 =
      !![1e-6, 0, 0; 0, 0, 0; 0, 0, 0] := by
    ext i j
    fin_cases i <;> fin_cases j <;>
      simp [Matrix.one_apply, Matrix.vecHead, Matrix.vecTail]
  have hS : step_S ((-(2e-6) : ℝ) • 1) ![1, 0, 0] 0 ![1, 0, 0] ![0, 0, 0] =
      block !![1e-6, 0, 0; 0, 0, 0; 0, 0, 0] 0 0 ((1e-6 : ℝ) • 1) := by
    unfold step_S
    rw [hPp, hC, block_transpose, Matrix.transpose_zero, Matrix.mul_smul, Matrix.mul_one,
      Matrix.smul_mul, block_mul]
    simp only [Matrix.mul_zero, Matrix.zero_mul, add_zero]
    rw [hsq, block_smul, smul_zero, hV, block_add]
    simp only [add_zero, zero_add]
    rw [hinner]
  have h2 : (step_S sSing.P ![1, 0, 0] 0 ![1, 0, 0] ![0, 0, 0]).det = 0 := by
    rw [show sSing.P = (-(2e-6) : ℝ) • 1 from rfl, hS, block_det_lower_zero]
    have : (!![1e-6, 0, 0; 0, 0, 0; 0, 0, 0] : Mat 3 3).det = 0 := by
      rw [Matrix.det_fin_three]
      norm_num
    rw [this, zero_mul]
  exact ⟨h1, h2, step_singular_innovation_fails sSing ![1, 0, 0] 0 ![0, 1, 0] ![0, 0, 1]
    ![1, 0, 0] ![0, 0, 0] h1 h2⟩

/-- Claim C4 counterexample: with `C = 0` (zero measured body vectors),
the innovation covariance is `S = V`, which is invertible — so the
zero-`C` scenario does not produce a singular `S`, and `step` does not
signal the singularity condition there; it instead hits the `θ = 0`
degenerate correction (a `NaN` in the source, `nonFinite` here). -/
theorem zero_C_not_singular_counterexample :
    step_C ![0, 0, 0] ![0, 0, 0] = 0 ∧
      (step_S sId.P ![1, 0, 0] 1 ![0, 0, 0] ![0, 0, 0]).det ≠ 0 ∧
      step sId ![1, 0, 0] 1 ![1, 0, 0] ![0, 1, 0] ![0, 0, 0] ![0, 0, 0] ≠
        Except.error StepError.singular := by
  have hC : step_C ![0, 0, 0] ![0, 0, 0] = 0 := by
    unfold step_C
    rw [hat_zeroVec, block_zero]
  have hS : step_S sId.P ![1, 0, 0] 1 ![0, 0, 0] ![0, 0, 0] = V := by
    unfold step_S
    rw [hC]
    simp [Matrix.zero_mul, Matrix.mul_zero, Matrix.transpose_zero]
  have hdet : (step_S sId.P ![1, 0, 0] 1 ![0, 0, 0] ![0, 0, 0]).det ≠ 0 := by
    rw [hS]
    exact V_det_ne_zero
  have h1 : step_mag ![1, 0, 0] ≠ 0 := by
    rw [step_mag_e1]
    norm_num
  have hL : step_L sId.P ![1, 0, 0] 1 ![0, 0, 0] ![0, 0, 0] = 0 := by
    unfold step_L
    rw [hC]
    simp [Matrix.transpose_zero, Matrix.mul_zero, Matrix.zero_mul]
  have hθ : step_θ sId ![1, 0, 0] 1 ![1, 0, 0] ![0, 1, 0] ![0, 0, 0] ![0, 0, 0] = 0 := by
    unfold step_θ step_ϕ step_δx
    rw [hL, Matrix.zero_mulVec]
    simp [normV, Fin.sum_univ_three]
  refine ⟨hC, hdet, ?_⟩
  unfold step
  rw [if_neg h1, if_neg hdet, if_pos hθ]
  intro h
  exact absurd (Except.error.inj h) (by intro h'; cases h')

lemma normV4_eval (a b c d : ℝ) :
    normV ![a, b, c, d] = Real.sqrt (a ^ 2 + b ^ 2 + c ^ 2 + d ^ 2) := by
  simp [normV, Fin.sum_univ_four]

lemma step_C_e1 : step_C ![1, 0, 0] ![0, 0, 0] = block (hat ![1, 0, 0]) 0 0 0 := by
  unfold step_C
  rw [hat_zeroVec]

lemma hat_e1_sq_t : hat ![1, 0, 0] * (hat ![1, 0, 0])ᵀ = !![0, 0, 0; 0, 1, 0; 0, 0, 1] := by
  rw [hat_e1_eval]
  ext i j
  fin_cases i <;> fin_cases j <;>
    simp [Matrix.mul_apply, Fin.sum_univ_three, Matrix.vecHead, Matrix.vecTail]

/-- Claim C1 (code bug): at a concrete input with prior bias
`state.β = (1,0,0)` where the correction's bias part `δβ` is zero, the
code returns the bias `0 = β + δβ` computed from the module-level zero
bias `β`, not `state.β + δβ = (1,0,0)` as the claim (and the spec's
`β_u = β + δβ` with the state's `β`) requires. -/
theorem step_bias_update_uses_global_bias :
    Except.map State.β (step sBias ![1, 0, 0] 0 ![1, 0, -1] ![0, 1, 0] ![1, 0, 0] ![0, 0, 0]) =
        Except.ok 0 ∧
      step_δβ sBias ![1, 0, 0] 0 ![1, 0, -1] ![0, 1, 0] ![1, 0, 0] ![0, 0, 0] = 0 ∧
      sBias.β + step_δβ sBias ![1, 0, 0] 0 ![1, 0, -1] ![0, 1, 0] ![1, 0, 0] ![0, 0, 0] ≠ 0 := by
  have hmag : step_mag ![1, 0, 0] ≠ 0 := by
    rw [step_mag_e1]
    norm_num
  have hqp : step_qp sBias ![1, 0, 0] 0 = ![1, 0, 0, 0] := by
    unfold step_qp propagate_state
    rw [show sBias.β = ![1, 0, 0] from rfl, sub_self, show normV (0 : Vec 3) = 0 from
      normV_eq_zero.2 rfl, if_pos rfl]
    rfl
  have hPp : step_Pp sBias.P ![1, 0, 0] 0 = ((1 : ℝ) + 1e-6) • 1 := by
    rw [show sBias.P = (1 : Mat 6 6) from rfl, step_Pp_dt0]
    unfold W
    rw [add_smul, one_smul]
  have hS : step_S sBias.P ![1, 0, 0] 0 ![1, 0, 0] ![0, 0, 0] =
      block !![1e-6, 0, 0; 0, 1 + 2e-6, 0; 0, 0, 1 + 2e-6] 0 0 ((1e-6 : ℝ) • 1) := by
    have hV : (V : Mat 6 6) = block ((1e-6 : ℝ) • 1) 0 0 ((1e-6 : ℝ) • 1) := by
      unfold V
      rw [show (1 : Mat 6 6) = block 1 0 0 1 from block_one.symm, block_smul, smul_zero]
    have hinner : ((1 : ℝ) + 1e-6) • (!![0, 0, 0; 0, 1, 0; 0, 0, 1] : Mat 3 3) +
        (1e-6 : ℝ) • 1 = !![1e-6, 0, 0; 0, 1 + 2e-6, 0; 0, 0, 1 + 2e-6] := by
      ext i j
      fin_cases i <;> fin_cases j <;>
        simp [Matrix.one_apply, Matrix.vecHead, Matrix.vecTail] <;> norm_num
    unfold step_S
    rw [hPp, step_C_e1, block_transpose, Matrix.transpose_zero, Matrix.mul_smul,
      Matrix.mul_one, Matrix.smul_mul, block_mul]
    simp only [Matrix.mul_zero, Matrix.zero_mul, add_zero]
    rw [hat_e1_sq_t, block_smul, smul_zero, hV, block_add]
    simp only [add_zero, zero_add]
    rw [hinner]
  have hprod : block !![1e-6, 0, 0; 0, 1 + 2e-6, 0; 0, 0, 1 + 2e-6] 0 0 ((1e-6 : ℝ) • 1) *
      block !![1e6, 0, 0; 0, ((1 : ℝ) + 2e-6)⁻¹, 0; 0, 0, ((1 : ℝ) + 2e-6)⁻¹] 0 0
        ((1e6 : ℝ) • 1) = 1 := by
    rw [block_mul]
    simp only [Matrix.mul_zero, Matrix.zero_mul, add_zero, zero_add]
    have hd : (!![1e-6, 0, 0; 0, 1 + 2e-6, 0; 0, 0, 1 + 2e-6] : Mat 3 3) *
        !![1e6, 0, 0; 0, ((1 : ℝ) + 2e-6)⁻¹, 0; 0, 0, ((1 : ℝ) + 2e-6)⁻¹] = 1 := by
      ext i j
      fin_cases i <;> fin_cases j <;>
        simp [Matrix.mul_apply, Fin.sum_univ_three, Matrix.one_apply, Matrix.vecHead,
          Matrix.vecTail] <;>
        norm_num
    have he : ((1e-6 : ℝ) • 1) * ((1e6 : ℝ) • (1 : Mat 3 3)) = 1 := by
      rw [Matrix.smul_mul, Matrix.mul_smul, Matrix.one_mul, smul_smul]
      norm_num
    rw [hd, he, block_one]
  have hdet : (step_S sBias.P ![1, 0, 0] 0 ![1, 0, 0] ![0, 0, 0]).det ≠ 0 := by
    rw [hS]
    exact Matrix.det_ne_zero_of_right_inverse hprod
  have hSinv : (step_S sBias.P ![1, 0, 0] 0 ![1, 0, 0] ![0, 0, 0])⁻¹ =
      block !![1e6, 0, 0; 0, ((1 : ℝ) + 2e-6)⁻¹, 0; 0, 0, ((1 : ℝ) + 2e-6)⁻¹] 0 0
        ((1e6 : ℝ) • 1) := by
    rw [hS]
    exact Matrix.inv_eq_right_inv hprod
  have hM3 : (hat ![1, 0, 0])ᵀ *
      !![1e6, 0, 0; 0, ((1 : ℝ) + 2e-6)⁻¹, 0; 0, 0, ((1 : ℝ) + 2e-6)⁻¹] =
      !![0, 0, 0; 0, 0, ((1 : ℝ) + 2e-6)⁻¹; 0, -((1 : ℝ) + 2e-6)⁻¹, 0] := by
    rw [hat_e1_eval]
    ext i j
    fin_cases i <;> fin_cases j <;>
      simp [Matrix.mul_apply, Fin.sum_univ_three, Matrix.transpose_apply, Matrix.vecHead,
        Matrix.vecTail]
  have hMex : ((1 : ℝ) + 1e-6) •
      (!![0, 0, 0; 0, 0, ((1 : ℝ) + 2e-6)⁻¹; 0, -((1 : ℝ) + 2e-6)⁻¹, 0] : Mat 3 3) =
      !![0, 0, 0; 0, 0, ((1 : ℝ) + 1e-6) * ((1 : ℝ) + 2e-6)⁻¹;
         0, -(((1 : ℝ) + 1e-6) * ((1 : ℝ) + 2e-6)⁻¹), 0] := by
    ext i j
    fin_cases i <;> fin_cases j <;> simp [Matrix.vecHead, Matrix.vecTail]
  have hL : step_L sBias.P ![1, 0, 0] 0 ![1, 0, 0] ![0, 0, 0] =
      block !![0, 0, 0; 0, 0, ((1 : ℝ) + 1e-6) * ((1 : ℝ) + 2e-6)⁻¹;
               0, -(((1 : ℝ) + 1e-6) * ((1 : ℝ) + 2e-6)⁻¹), 0] 0 0 0 := by
    unfold step_L
    rw [hPp, step_C_e1, block_transpose, Matrix.transpose_zero, hSinv, Matrix.smul_mul,
      Matrix.one_mul, Matrix.smul_mul, block_mul]
    simp only [Matrix.mul_zero, Matrix.zero_mul, add_zero, zero_add]
    rw [block_smul, smul_zero, hM3, hMex]
  have hZ : step_Z ![1, 0, 0, 0] ![1, 0, -1] ![0, 1, 0] ![1, 0, 0] ![0, 0, 0] =
      concatV ![0, 0, 1] ![0, -1, 0] := by
    unfold step_Z
    rw [rot_unit, Matrix.transpose_one, block_one, Matrix.one_mulVec, concatV_sub]
    have h1 : (![1, 0, 0] : Vec 3) - ![1, 0, -1] = ![0, 0, 1] := by
      funext i
      fin_cases i <;> norm_num
    have h2 : (![0, 0, 0] : Vec 3) - ![0, 1, 0] = ![0, -1, 0] := by
      funext i
      fin_cases i <;> norm_num
    rw [h1, h2]
  have hMv : (!![0, 0, 0; 0, 0, ((1 : ℝ) + 1e-6) * ((1 : ℝ) + 2e-6)⁻¹;
      0, -(((1 : ℝ) + 1e-6) * ((1 : ℝ) + 2e-6)⁻¹), 0] : Mat 3 3).mulVec ![0, 0, 1] =
      ![0, ((1 : ℝ) + 1e-6) * ((1 : ℝ) + 2e-6)⁻¹, 0] := by
    funext i
    fin_cases i <;>
      simp [Matrix.mulVec, Matrix.dotProduct, Fin.sum_univ_three, Matrix.vecHead,
        Matrix.vecTail]
  have hδx : step_δx sBias ![1, 0, 0] 0 ![1, 0, -1] ![0, 1, 0] ![1, 0, 0] ![0, 0, 0] =
      concatV ![0, ((1 : ℝ) + 1e-6) * ((1 : ℝ) + 2e-6)⁻¹, 0] 0 := by
    unfold step_δx
    rw [hqp, hZ, hL, block_mulVec]
    simp only [Matrix.zero_mulVec, add_zero, zero_add]
    rw [hMv]
  have hδβ : step_δβ sBias ![1, 0, 0] 0 ![1, 0, -1] ![0, 1, 0] ![1, 0, 0] ![0, 0, 0] = 0 := by
    unfold step_δβ
    rw [hδx, concatV_apply_3, concatV_apply_4, concatV_apply_5]
    funext i
    fin_cases i <;> rfl
  have hϕ : step_ϕ sBias ![1, 0, 0] 0 ![1, 0, -1] ![0, 1, 0] ![1, 0, 0] ![0, 0, 0] =
      ![0, ((1 : ℝ) + 1e-6) * ((1 : ℝ) + 2e-6)⁻¹, 0] := by
    unfold step_ϕ
    rw [hδx, concatV_apply_0, concatV_apply_1, concatV_apply_2]
    funext i
    fin_cases i <;> rfl
  have hx : (0 : ℝ) < ((1 : ℝ) + 1e-6) * ((1 : ℝ) + 2e-6)⁻¹ := by positivity
  have hθ : step_θ sBias ![1, 0, 0] 0 ![1, 0, -1] ![0, 1, 0] ![1, 0, 0] ![0, 0, 0] =
      ((1 : ℝ) + 1e-6) * ((1 : ℝ) + 2e-6)⁻¹ := by
    unfold step_θ
    rw [hϕ, normV3_eval, show (0 : ℝ) ^ 2 + (((1 : ℝ) + 1e-6) * ((1 : ℝ) + 2e-6)⁻¹) ^ 2 +
      (0 : ℝ) ^ 2 = (((1 : ℝ) + 1e-6) * ((1 : ℝ) + 2e-6)⁻¹) ^ 2 from by ring]
    exact Real.sqrt_sq hx.le
  have hθne : step_θ sBias ![1, 0, 0] 0 ![1, 0, -1] ![0, 1, 0] ![1, 0, 0] ![0, 0, 0] ≠ 0 := by
    rw [hθ]
    exact hx.ne'
  have hqu : step_qu sBias ![1, 0, 0] 0 ![1, 0, -1] ![0, 1, 0] ![1, 0, 0] ![0, 0, 0] =
      ![Real.cos (((1 : ℝ) + 1e-6) * ((1 : ℝ) + 2e-6)⁻¹ / 2), 0,
        Real.sin (((1 : ℝ) + 1e-6) * ((1 : ℝ) + 2e-6)⁻¹ / 2), 0] := by
    have hr0 : step_r sBias ![1, 0, 0] 0 ![1, 0, -1] ![0, 1, 0] ![1, 0, 0] ![0, 0, 0] 0 = 0 := by
      unfold step_r
      rw [hϕ]
      simp
    have hr1 : step_r sBias ![1, 0, 0] 0 ![1, 0, -1] ![0, 1, 0] ![1, 0, 0] ![0, 0, 0] 1 = 1 := by
      unfold step_r
      rw [hϕ, hθ]
      simp [div_self hx.ne']
    have hr2 : step_r sBias ![1, 0, 0] 0 ![1, 0, -1] ![0, 1, 0] ![1, 0, 0] ![0, 0, 0] 2 = 0 := by
      unfold step_r
      rw [hϕ]
      simp [Matrix.vecHead, Matrix.vecTail]
    unfold step_qu
    rw [hqp, left_matrix_unit, Matrix.one_mulVec, hr0, hr1, hr2, hθ]
    norm_num
  have hqune : normV (step_qu sBias ![1, 0, 0] 0 ![1, 0, -1] ![0, 1, 0] ![1, 0, 0]
      ![0, 0, 0]) ≠ 0 := by
    rw [hqu, normV4_eval, show Real.cos (((1 : ℝ) + 1e-6) * ((1 : ℝ) + 2e-6)⁻¹ / 2) ^ 2 +
      (0 : ℝ) ^ 2 + Real.sin (((1 : ℝ) + 1e-6) * ((1 : ℝ) + 2e-6)⁻¹ / 2) ^ 2 + (0 : ℝ) ^ 2 =
      Real.cos (((1 : ℝ) + 1e-6) * ((1 : ℝ) + 2e-6)⁻¹ / 2) ^ 2 +
        Real.sin (((1 : ℝ) + 1e-6) * ((1 : ℝ) + 2e-6)⁻¹ / 2) ^ 2 from by ring,
      Real.cos_sq_add_sin_sq, Real.sqrt_one]
    norm_num
  refine ⟨?_, hδβ, ?_⟩
  · unfold step
    rw [if_neg hmag, if_neg hdet, if_neg hθne, if_neg hqune]
    simp only [Except.map]
    rw [β_eq_zero, hδβ, add_zero]
  · rw [hδβ, add_zero, show sBias.β = ![1, 0, 0] from rfl]
    intro h
    have h0 := congrFun h 0
    norm_num at h0

end MEKF
